import Mathlib

/-!
Verification development for the cTracerX-mase-phi preprocessing core:
a shallow embedding of `src/0-preprocess/bootstrap_maf.py` (the bootstrap
resampling engine and the PhyloWGS record exporter) and
`src/0-preprocess/maf_agg.py` (the mutation set aggregator).

Conventions of the embedding:
* python floats are modelled as exact rationals; the binary64 rounding
  that the program applies when it stores a frequency into a numpy
  float64 array is modelled separately by `fl64` below;
* the random primitives `np.random.multinomial` and `np.random.binomial`
  are modelled as oracle functions passed in as arguments; theorems
  constrain them by the support of the corresponding distribution
  (each multinomial row sums to the number of trials, a binomial draw
  is at most its trial count);
* `pandas` missing values (NaN) are modelled with `Option`.
-/

/-- A depth matrix as drawn by `np.random.multinomial(n, pvals, size)`:
`size` rows (one per bootstrap replicate), one entry per site. -/
abbrev DepthMat := List (List Nat)

/-- Model of `np.any(m == 0)` on a depth matrix. -/
def hasZero (m : DepthMat) : Bool :=
  m.any (fun row => row.any (fun d => d == 0))

/-- Model of `m[np.where(m == 0)] = 1`: every zero entry replaced by 1
(bootstrap_maf.py line 58). -/
def forceOnes (m : DepthMat) : DepthMat :=
  m.map (fun row => row.map (fun d => if d == 0 then 1 else d))

/-- Model of `np.array(Depth_list)/total_depth` (bootstrap_maf.py line 51),
the probability vector handed to the multinomial draw. -/
def pvals (Depth_list : List Nat) : List ℚ :=
  Depth_list.map (fun (d : Nat) => (d : ℚ) / ((Depth_list.sum : Nat) : ℚ))

/-- The retry loop of `bootstrap_va_dt` (bootstrap_maf.py lines 47-59).
`count` is incremented at the top of each iteration and `draws count`
is the multinomial draw of that iteration; a draw without zero entries ends
the loop at once; otherwise, once `count` reaches 10, the remaining zero
entries are forced to 1 and the loop ends. Returns the final depth
matrix, whether the force-to-1 fallback was taken, and the final count. -/
def bvdtLoop (draws : Nat → DepthMat) (count : Nat) : DepthMat × Bool × Nat :=
  if hasZero (draws (count + 1)) = false then
    (draws (count + 1), false, count + 1)
  else if h : 10 ≤ count + 1 then
    (forceOnes (draws (count + 1)), true, count + 1)
  else
    bvdtLoop draws (count + 1)
termination_by 10 - count
decreasing_by omega

/-- Entry `(i, j)` of a nat matrix stored as a list of rows (0 outside). -/
def matGet (m : List (List Nat)) (i j : Nat) : Nat :=
  (m.getD i []).getD j 0

/-- Entry `(i, j)` of a rational matrix stored as a list of rows. -/
def matGetQ (m : List (List ℚ)) (i j : Nat) : ℚ :=
  (m.getD i []).getD j 0

/-- Model of numpy `.T` for a matrix with `cols` columns. -/
def transposeMat (m : DepthMat) (cols : Nat) : DepthMat :=
  (List.range cols).map (fun i => m.map (fun row => row.getD i 0))

/-- Sum of column `j` of a nat matrix. -/
def colSum (m : DepthMat) (j : Nat) : Nat :=
  (m.map (fun row => row.getD j 0)).sum

/-- The depth-resampling part of `bootstrap_va_dt`: the retry loop run on
the multinomial oracle called with `n = sum(Depth_list)` and the depth
proportions as probability vector (bootstrap_maf.py lines 45-59). -/
def bvdtRes (Depth_list : List Nat) (multinom : Nat → List ℚ → Nat → DepthMat) :
    DepthMat × Bool × Nat :=
  bvdtLoop (multinom Depth_list.sum (pvals Depth_list)) 0

/-- Model of `bootstrap_va_dt` (bootstrap_maf.py lines 31-70).
`multinom` is the `np.random.multinomial` oracle, taking the trial count,
the probability vector and the attempt number; `binom` is the
`np.random.binomial` oracle, taking the trial count, the success
probability, the site index and the replicate index. Returns the
frequency matrix (sites x replicates), the depth matrix transposed to
sites x replicates as in the source (line 69), and whether the retry
loop took the force-to-1 fallback. The frequency entries are the exact
rational quotients; the float64 value the program stores for them is
their `fl64` rounding (see `storedFreq` below). -/
def bootstrap_va_dt (AF_list : List ℚ) (Depth_list : List Nat) (bootstrap_num : Nat)
    (multinom : Nat → List ℚ → Nat → DepthMat)
    (binom : Nat → ℚ → Nat → Nat → Nat) :
    List (List ℚ) × DepthMat × Bool :=
  let new_Depth_list := (bvdtRes Depth_list multinom).1
  let AF_list_update :=
    (List.range AF_list.length).map (fun i =>
      (List.range bootstrap_num).map (fun j =>
        ((binom (matGet new_Depth_list j i) (AF_list.getD i 0) i j : ℚ) /
          ((matGet new_Depth_list j i : Nat) : ℚ))))
  (AF_list_update, transposeMat new_Depth_list Depth_list.length,
    (bvdtRes Depth_list multinom).2.1)

/-- Characterization of the retry loop, for any starting count below 10:
either some attempt in `(count, 10]` is the first with a zero-free draw
and the loop returns that draw with no fallback, or all attempts up to
the 10th have a zero entry and the loop returns the 10th draw with its
zeros forced to 1. -/
theorem bvdtLoop_char_aux (draws : Nat → DepthMat) :
    ∀ (n count : Nat), 10 - count = n → count < 10 →
    (∃ k, count < k ∧ k ≤ 10 ∧ hasZero (draws k) = false ∧
        (∀ k2, count < k2 → k2 < k → hasZero (draws k2) = true) ∧
        bvdtLoop draws count = (draws k, false, k)) ∨
    ((∀ k, count < k → k ≤ 10 → hasZero (draws k) = true) ∧
        bvdtLoop draws count = (forceOnes (draws 10), true, 10)) := by
  intro n
  induction n with
  | zero => intro count hn hlt; omega
  | succ n ih =>
    intro count hn hlt
    by_cases hz : hasZero (draws (count + 1)) = false
    · left
      refine ⟨count + 1, Nat.lt_succ_self count, by omega, hz, ?_, ?_⟩
      · intro k2 h1 h2; omega
      · rw [bvdtLoop]; simp [hz]
    · have hz1 : hasZero (draws (count + 1)) = true := by
        cases h : hasZero (draws (count + 1)) with
        | false => exact absurd h hz
        | true => rfl
      by_cases h10 : count + 1 = 10
      · right
        constructor
        · intro k hk1 hk2
          have : k = 10 := by omega
          rw [this, ← h10]; exact hz1
        · rw [bvdtLoop]
          rw [h10] at hz1 ⊢
          simp [hz1]
      · have hrec : bvdtLoop draws count = bvdtLoop draws (count + 1) := by
          rw [bvdtLoop]
          simp [hz1]
          intro hc; omega
        have hlt2 : count + 1 < 10 := by omega
        rcases ih (count + 1) (by omega) hlt2 with
          ⟨k, hk1, hk2, hkz, hfirst, heq⟩ | ⟨hall, heq⟩
        · left
          refine ⟨k, by omega, hk2, hkz, ?_, by rw [hrec, heq]⟩
          intro k2 h1 h2
          by_cases hk2e : k2 = count + 1
          · rw [hk2e]; exact hz1
          · exact hfirst k2 (by omega) h2
        · right
          refine ⟨?_, by rw [hrec, heq]⟩
          intro k hk1 hk2
          by_cases hke : k = count + 1
          · rw [hke]; exact hz1
          · exact hall k (by omega) hk2

/-- Characterization of the retry loop as run by `bootstrap_va_dt`
(starting count 0). -/
theorem bvdtLoop_char (draws : Nat → DepthMat) :
    (∃ k, 0 < k ∧ k ≤ 10 ∧ hasZero (draws k) = false ∧
        (∀ k2, 0 < k2 → k2 < k → hasZero (draws k2) = true) ∧
        bvdtLoop draws 0 = (draws k, false, k)) ∨
    ((∀ k, 0 < k → k ≤ 10 → hasZero (draws k) = true) ∧
        bvdtLoop draws 0 = (forceOnes (draws 10), true, 10)) :=
  bvdtLoop_char_aux draws 10 0 rfl (by omega)

/-- A matrix on which `hasZero` is false has only positive entries. -/
theorem hasZero_false_pos (m : DepthMat) (hm : hasZero m = false) :
    ∀ row ∈ m, ∀ d ∈ row, 1 ≤ d := by
  intro row hrow d hd
  by_contra hlt
  have hd0 : d = 0 := by omega
  have htrue : hasZero m = true := by
    unfold hasZero
    rw [List.any_eq_true]
    refine ⟨row, hrow, ?_⟩
    rw [List.any_eq_true]
    exact ⟨d, hd, by simp [hd0]⟩
  rw [htrue] at hm
  exact absurd hm (by simp)

/-- `forceOnes` produces only positive entries. -/
theorem forceOnes_pos (m : DepthMat) :
    ∀ row ∈ forceOnes m, ∀ d ∈ row, 1 ≤ d := by
  intro row hrow d hd
  unfold forceOnes at hrow
  rw [List.mem_map] at hrow
  obtain ⟨row0, _, hrow0⟩ := hrow
  rw [← hrow0] at hd
  rw [List.mem_map] at hd
  obtain ⟨d0, _, hd0⟩ := hd
  by_cases h0 : d0 = 0 <;> simp [h0] at hd0 <;> omega

/-- `forceOnes` preserves the matrix shape. -/
theorem forceOnes_shape (m : DepthMat) :
    (forceOnes m).length = m.length ∧
    ∀ row ∈ forceOnes m, ∃ row0 ∈ m, row.length = row0.length := by
  constructor
  · simp [forceOnes]
  · intro row hrow
    rw [forceOnes, List.mem_map] at hrow
    obtain ⟨row0, h0, hrow0⟩ := hrow
    exact ⟨row0, h0, by rw [← hrow0, List.length_map]⟩

/-- Every entry of the depth matrix produced by the retry loop is
positive: either the loop ended on a zero-free draw, or the remaining
zeros were forced to 1. -/
theorem bvdtLoop_pos (draws : Nat → DepthMat) :
    ∀ row ∈ (bvdtLoop draws 0).1, ∀ d ∈ row, 1 ≤ d := by
  rcases bvdtLoop_char draws with ⟨k, _, _, hkz, _, heq⟩ | ⟨_, heq⟩
  · rw [heq]; exact hasZero_false_pos (draws k) hkz
  · rw [heq]; exact forceOnes_pos (draws 10)

/-- The depth matrix produced by the retry loop has the shape of the
oracle draws: `B` rows of `s` entries each. -/
theorem bvdtLoop_shape (draws : Nat → DepthMat) (B s : Nat)
    (hlen : ∀ k, (draws k).length = B)
    (hrows : ∀ k, ∀ row ∈ draws k, row.length = s) :
    (bvdtLoop draws 0).1.length = B ∧
    ∀ row ∈ (bvdtLoop draws 0).1, row.length = s := by
  rcases bvdtLoop_char draws with ⟨k, _, _, _, _, heq⟩ | ⟨_, heq⟩
  · rw [heq]; exact ⟨hlen k, hrows k⟩
  · rw [heq]
    refine ⟨by rw [(forceOnes_shape (draws 10)).1]; exact hlen 10, ?_⟩
    intro row hrow
    obtain ⟨row0, h0, hlen0⟩ := (forceOnes_shape (draws 10)).2 row hrow
    rw [hlen0]; exact hrows 10 row0 h0

/-- Reading entry `j` of the map that extracts column `i` is reading
entry `(j, i)` of the matrix. -/
theorem getD_map_getD (m : DepthMat) (i j : Nat) :
    (m.map (fun row => row.getD i 0)).getD j 0 = (m.getD j []).getD i 0 := by
  induction m generalizing j with
  | nil => simp
  | cons r t ih =>
    cases j with
    | zero => simp
    | succ j2 => simpa using ih j2

/-- Summing the first `length` positions of a list sums the list. -/
theorem sum_range_getD (l : List Nat) :
    ((List.range l.length).map (fun i => l.getD i 0)).sum = l.sum := by
  induction l with
  | nil => simp
  | cons a t ih =>
    rw [List.length_cons, List.range_succ_eq_map, List.map_cons, List.map_map]
    have heq : List.map ((fun i => (a :: t).getD i 0) ∘ Nat.succ) (List.range t.length)
        = List.map (fun i => t.getD i 0) (List.range t.length) :=
      List.map_congr_left (fun i _ => by simp)
    rw [List.sum_cons, List.getD_cons_zero, heq, ih]
    simp

/-- Reading a mapped range below its bound evaluates the function. -/
theorem getD_range_map {α : Type} (f : Nat → α) (n i : Nat) (d : α) (hi : i < n) :
    ((List.range n).map f).getD i d = f i := by
  have hlen : i < ((List.range n).map f).length := by simpa using hi
  rw [List.getD_eq_getElem _ _ hlen]
  simp

/-- Column `j` of the transpose of a matrix whose row `j` has `cols`
entries is row `j` of the matrix. -/
theorem colSum_transpose (m : DepthMat) (cols j : Nat)
    (hrow : (m.getD j []).length = cols) :
    colSum (transposeMat m cols) j = (m.getD j []).sum := by
  unfold colSum transposeMat
  rw [List.map_map]
  have heq : List.map ((fun row => row.getD j 0) ∘ (fun i => m.map (fun row => row.getD i 0)))
        (List.range cols)
      = List.map (fun i => (m.getD j []).getD i 0) (List.range cols) :=
    List.map_congr_left (fun i _ => getD_map_getD m i j)
  rw [heq, ← hrow]
  exact sum_range_getD (m.getD j [])

/-- Entry `(i, j)` of the transpose is entry `(j, i)` of the matrix. -/
theorem matGet_transpose (m : DepthMat) (cols i j : Nat) (hi : i < cols) :
    matGet (transposeMat m cols) i j = matGet m j i := by
  unfold matGet transposeMat
  rw [getD_range_map _ cols i [] hi]
  exact getD_map_getD m i j

/-- The depth matrix returned by `bootstrap_va_dt` is the transposed
result of the retry loop. -/
theorem bootstrap_va_dt_depths (AF_list : List ℚ) (Depth_list : List Nat)
    (bootstrap_num : Nat) (multinom : Nat → List ℚ → Nat → DepthMat)
    (binom : Nat → ℚ → Nat → Nat → Nat) :
    (bootstrap_va_dt AF_list Depth_list bootstrap_num multinom binom).2.1 =
      transposeMat (bvdtRes Depth_list multinom).1 Depth_list.length := rfl

/-- The fallback flag returned by `bootstrap_va_dt` is the flag of the
retry loop. -/
theorem bootstrap_va_dt_flag (AF_list : List ℚ) (Depth_list : List Nat)
    (bootstrap_num : Nat) (multinom : Nat → List ℚ → Nat → DepthMat)
    (binom : Nat → ℚ → Nat → Nat → Nat) :
    (bootstrap_va_dt AF_list Depth_list bootstrap_num multinom binom).2.2 =
      (bvdtRes Depth_list multinom).2.1 := rfl

/-- Entry `(i, j)` of the returned frequency matrix is the binomial draw
at trial count `new_Depth_list[j, i]` divided by that trial count. -/
theorem bootstrap_va_dt_freq_entry (AF_list : List ℚ) (Depth_list : List Nat)
    (bootstrap_num : Nat) (multinom : Nat → List ℚ → Nat → DepthMat)
    (binom : Nat → ℚ → Nat → Nat → Nat)
    (i j : Nat) (hi : i < AF_list.length) (hj : j < bootstrap_num) :
    matGetQ (bootstrap_va_dt AF_list Depth_list bootstrap_num multinom binom).1 i j =
      ((binom (matGet (bvdtRes Depth_list multinom).1 j i) (AF_list.getD i 0) i j : ℚ) /
        ((matGet (bvdtRes Depth_list multinom).1 j i : Nat) : ℚ)) := by
  have h1 : (bootstrap_va_dt AF_list Depth_list bootstrap_num multinom binom).1 =
      (List.range AF_list.length).map (fun i2 =>
        (List.range bootstrap_num).map (fun j2 =>
          ((binom (matGet (bvdtRes Depth_list multinom).1 j2 i2) (AF_list.getD i2 0) i2 j2 : ℚ) /
            ((matGet (bvdtRes Depth_list multinom).1 j2 i2 : Nat) : ℚ)))) := rfl
  rw [h1]
  unfold matGetQ
  rw [getD_range_map _ AF_list.length i [] hi]
  rw [getD_range_map _ bootstrap_num j 0 hj]

/-- C1: for every frequency vector and every non-empty depth vector of
positive total, whenever `bootstrap_va_dt` returns without taking the
force-to-1 fallback, every column of the returned depth matrix (one
replicate across all sites) sums exactly to the sum of the original
depths. The multinomial oracle is constrained to the support of the
distribution: each draw has `bootstrap_num` rows, one entry per site,
and each row sums to the trial count. -/
theorem bootstrap_va_dt_coverage
    (AF_list : List ℚ) (Depth_list : List Nat) (bootstrap_num : Nat)
    (multinom : Nat → List ℚ → Nat → DepthMat) (binom : Nat → ℚ → Nat → Nat → Nat)
    (_hne : Depth_list ≠ [])
    (_hpos : 0 < Depth_list.sum)
    (hlen : ∀ n p k, (multinom n p k).length = bootstrap_num)
    (hrows : ∀ n p k, ∀ row ∈ multinom n p k,
        row.length = Depth_list.length ∧ row.sum = n)
    (hflag : (bootstrap_va_dt AF_list Depth_list bootstrap_num multinom binom).2.2 = false)
    (j : Nat) (hj : j < bootstrap_num) :
    colSum (bootstrap_va_dt AF_list Depth_list bootstrap_num multinom binom).2.1 j
      = Depth_list.sum := by
  rw [bootstrap_va_dt_depths]
  rw [bootstrap_va_dt_flag] at hflag
  have hres : bvdtRes Depth_list multinom
      = bvdtLoop (multinom Depth_list.sum (pvals Depth_list)) 0 := rfl
  rw [hres] at hflag ⊢
  rcases bvdtLoop_char (multinom Depth_list.sum (pvals Depth_list)) with
    ⟨k, _, _, hkz, _, heq⟩ | ⟨_, heq⟩
  · rw [heq] at hflag ⊢
    show colSum (transposeMat (multinom Depth_list.sum (pvals Depth_list) k)
      Depth_list.length) j = Depth_list.sum
    have hjlen : j < (multinom Depth_list.sum (pvals Depth_list) k).length := by
      rw [hlen]; exact hj
    have hrj : (multinom Depth_list.sum (pvals Depth_list) k).getD j []
        ∈ multinom Depth_list.sum (pvals Depth_list) k := by
      rw [List.getD_eq_getElem _ _ hjlen]
      exact List.getElem_mem hjlen
    obtain ⟨hlenr, hsumr⟩ := hrows Depth_list.sum (pvals Depth_list) k _ hrj
    rw [colSum_transpose _ _ _ hlenr]
    exact hsumr
  · rw [heq] at hflag
    simp at hflag

/-- Witness for C1 at a concrete input: one site of depth 5, one
replicate, a multinomial oracle that returns all trials on the one site
(so the first attempt has no zero and the fallback is not taken). -/
theorem bootstrap_va_dt_coverage_witness :
    colSum (bootstrap_va_dt [(1 : ℚ)/2] [5] 1
      (fun n _ _ => [[n]]) (fun _ _ _ _ => 0)).2.1 0 = [5].sum :=
  bootstrap_va_dt_coverage [(1 : ℚ)/2] [5] 1 (fun n _ _ => [[n]]) (fun _ _ _ _ => 0)
    (by simp) (by simp)
    (fun n p k => rfl)
    (by
      intro n p k row hrow
      rw [List.mem_singleton] at hrow
      subst hrow
      exact ⟨rfl, by simp⟩)
    (by
      rw [bootstrap_va_dt_flag]
      show (bvdtLoop (fun _ => [[([5].sum : Nat)]]) 0).2.1 = false
      rw [bvdtLoop]
      decide)
    0 (by omega)

/-- C2: the retry loop of `bootstrap_va_dt` terminates after at most 10
draw attempts; it exits early on the first attempt whose draw has no
zero entry, and if all 10 attempts have a zero entry it exits after the
10th with the remaining zeros of that draw replaced by 1. -/
theorem bvdtLoop_attempts (draws : Nat → DepthMat) :
    (bvdtLoop draws 0).2.2 ≤ 10 ∧
    (∀ k, 0 < k → k ≤ 10 → hasZero (draws k) = false →
        (∀ k2, 0 < k2 → k2 < k → hasZero (draws k2) = true) →
        bvdtLoop draws 0 = (draws k, false, k)) ∧
    ((∀ k, 0 < k → k ≤ 10 → hasZero (draws k) = true) →
        bvdtLoop draws 0 = (forceOnes (draws 10), true, 10)) := by
  rcases bvdtLoop_char draws with
    ⟨k0, hk0a, hk0b, hk0z, hfirst, heq⟩ | ⟨hall, heq⟩
  · refine ⟨by rw [heq]; exact hk0b, ?_, ?_⟩
    · intro k hka hkb hkz hmin
      have hkk : k = k0 := by
        by_contra hne2
        rcases Nat.lt_or_ge k k0 with hlt | hge
        · have := hfirst k hka hlt
          rw [hkz] at this
          exact absurd this (by simp)
        · have hlt2 : k0 < k := by omega
          have := hmin k0 hk0a hlt2
          rw [hk0z] at this
          exact absurd this (by simp)
      rw [heq, hkk]
    · intro hall2
      have := hall2 k0 hk0a hk0b
      rw [hk0z] at this
      exact absurd this (by simp)
  · refine ⟨by rw [heq], ?_, fun _ => heq⟩
    intro k hka hkb hkz hmin
    have := hall k hka hkb
    rw [hkz] at this
    exact absurd this (by simp)

/-- C3: with frequencies in `[0, 1]` and a positive total depth, every
entry of the depth matrix returned by `bootstrap_va_dt` is at least 1,
every entry of the frequency matrix lies in `[0, 1]`, and the divisor of
the frequency computation is nonzero. The binomial oracle is constrained
to the support of the distribution (a draw is at most its trial count). -/
theorem bootstrap_va_dt_ratio_validity
    (AF_list : List ℚ) (Depth_list : List Nat) (bootstrap_num : Nat)
    (multinom : Nat → List ℚ → Nat → DepthMat) (binom : Nat → ℚ → Nat → Nat → Nat)
    (_haf : ∀ f ∈ AF_list, 0 ≤ f ∧ f ≤ 1)
    (hlenEq : AF_list.length = Depth_list.length)
    (_hpos : 0 < Depth_list.sum)
    (hlen : ∀ n p k, (multinom n p k).length = bootstrap_num)
    (hrows : ∀ n p k, ∀ row ∈ multinom n p k, row.length = Depth_list.length)
    (hbin : ∀ n p i j, binom n p i j ≤ n)
    (i j : Nat) (hi : i < AF_list.length) (hj : j < bootstrap_num) :
    1 ≤ matGet (bootstrap_va_dt AF_list Depth_list bootstrap_num multinom binom).2.1 i j ∧
    0 ≤ matGetQ (bootstrap_va_dt AF_list Depth_list bootstrap_num multinom binom).1 i j ∧
    matGetQ (bootstrap_va_dt AF_list Depth_list bootstrap_num multinom binom).1 i j ≤ 1 ∧
    ((matGet (bootstrap_va_dt AF_list Depth_list bootstrap_num multinom binom).2.1 i j : Nat) : ℚ)
      ≠ 0 := by
  have hshape := bvdtLoop_shape (multinom Depth_list.sum (pvals Depth_list))
    bootstrap_num Depth_list.length
    (fun k => hlen Depth_list.sum (pvals Depth_list) k)
    (fun k row hrow => hrows Depth_list.sum (pvals Depth_list) k row hrow)
  have hres : (bvdtRes Depth_list multinom).1
      = (bvdtLoop (multinom Depth_list.sum (pvals Depth_list)) 0).1 := rfl
  -- the entry of the loop result at (j, i) is positive
  have hjB : j < (bvdtRes Depth_list multinom).1.length := by
    rw [hres, hshape.1]; exact hj
  have hrowmem : (bvdtRes Depth_list multinom).1.getD j []
      ∈ (bvdtRes Depth_list multinom).1 := by
    rw [List.getD_eq_getElem _ _ hjB]
    exact List.getElem_mem hjB
  have hrowlen : ((bvdtRes Depth_list multinom).1.getD j []).length = Depth_list.length := by
    rw [hres] at hrowmem ⊢
    exact hshape.2 _ hrowmem
  have hentrymem : ((bvdtRes Depth_list multinom).1.getD j []).getD i 0
      ∈ (bvdtRes Depth_list multinom).1.getD j [] := by
    have hilen : i < ((bvdtRes Depth_list multinom).1.getD j []).length := by
      rw [hrowlen, ← hlenEq]; exact hi
    rw [List.getD_eq_getElem _ _ hilen]
    exact List.getElem_mem hilen
  have hposD : 1 ≤ matGet (bvdtRes Depth_list multinom).1 j i := by
    unfold matGet
    rw [hres] at hrowmem hentrymem ⊢
    exact bvdtLoop_pos (multinom Depth_list.sum (pvals Depth_list))
      _ hrowmem _ hentrymem
  have hDentry : matGet
      (bootstrap_va_dt AF_list Depth_list bootstrap_num multinom binom).2.1 i j
      = matGet (bvdtRes Depth_list multinom).1 j i := by
    rw [bootstrap_va_dt_depths]
    exact matGet_transpose _ Depth_list.length i j (by rw [← hlenEq]; exact hi)
  have hFentry := bootstrap_va_dt_freq_entry AF_list Depth_list bootstrap_num
    multinom binom i j hi hj
  have hcastpos : (0 : ℚ) < ((matGet (bvdtRes Depth_list multinom).1 j i : Nat) : ℚ) := by
    exact_mod_cast Nat.lt_of_lt_of_le Nat.zero_lt_one hposD
  refine ⟨?_, ?_, ?_, ?_⟩
  · rw [hDentry]; exact hposD
  · rw [hFentry]
    exact div_nonneg (Nat.cast_nonneg _) (Nat.cast_nonneg _)
  · rw [hFentry]
    rw [div_le_one hcastpos]
    exact_mod_cast hbin (matGet (bvdtRes Depth_list multinom).1 j i) (AF_list.getD i 0) i j
  · rw [hDentry]
    exact ne_of_gt hcastpos

/-- Witness for C3 at the concrete input of the C1 witness. -/
theorem bootstrap_va_dt_ratio_validity_witness :
    1 ≤ matGet (bootstrap_va_dt [(1 : ℚ)/2] [5] 1
        (fun n _ _ => [[n]]) (fun _ _ _ _ => 0)).2.1 0 0 ∧
    0 ≤ matGetQ (bootstrap_va_dt [(1 : ℚ)/2] [5] 1
        (fun n _ _ => [[n]]) (fun _ _ _ _ => 0)).1 0 0 ∧
    matGetQ (bootstrap_va_dt [(1 : ℚ)/2] [5] 1
        (fun n _ _ => [[n]]) (fun _ _ _ _ => 0)).1 0 0 ≤ 1 ∧
    ((matGet (bootstrap_va_dt [(1 : ℚ)/2] [5] 1
        (fun n _ _ => [[n]]) (fun _ _ _ _ => 0)).2.1 0 0 : Nat) : ℚ) ≠ 0 :=
  bootstrap_va_dt_ratio_validity [(1 : ℚ)/2] [5] 1
    (fun n _ _ => [[n]]) (fun _ _ _ _ => 0)
    (by
      intro f hf
      rw [List.mem_singleton] at hf
      subst hf
      norm_num)
    rfl (by simp)
    (fun n p k => rfl)
    (by
      intro n p k row hrow
      rw [List.mem_singleton] at hrow
      subst hrow
      rfl)
    (fun n p i j => Nat.zero_le n)
    0 0 (by simp) (by omega)

/-- Dividing every entry by a common denominator and summing is summing
and then dividing. -/
theorem sum_div_cast (l : List Nat) (S : ℚ) :
    (l.map (fun (d : Nat) => (d : ℚ) / S)).sum = ((l.sum : Nat) : ℚ) / S := by
  induction l with
  | nil => simp
  | cons a t ih =>
    rw [List.map_cons, List.sum_cons, ih, List.sum_cons]
    push_cast
    rw [add_div]

/-- C9: the proportion vector `Depth_list / total_depth` handed to the
multinomial draw is a probability vector (it sums to 1) exactly when the
total of the depth vector is positive; for an empty or all-zero depth
vector the division by the zero total produces no valid probability
vector, so the multinomial draw of `bootstrap_va_dt` is well defined
exactly under the precondition `sum(depths) > 0`. -/
theorem pvals_sum_one_iff (Depth_list : List Nat) :
    (pvals Depth_list).sum = 1 ↔ 0 < Depth_list.sum := by
  unfold pvals
  rw [sum_div_cast]
  constructor
  · intro h
    by_contra hle
    have h0 : Depth_list.sum = 0 := by omega
    rw [h0] at h
    norm_num at h
  · intro hpos
    rw [div_self]
    have : Depth_list.sum ≠ 0 := by omega
    exact_mod_cast this

/-- C10 (amended): in exact arithmetic the frequency entry of
`bootstrap_va_dt` is the binomial count over the returned depth, so the
exact quotient times the depth entry is an exact natural number between
0 and that depth. The program stores the quotient as a float64, and the
rounded stored value times the depth need not be a natural number (see
the binary64 counterexample below), so the count is recoverable from
the stored pair only up to float rounding. -/
theorem bootstrap_va_dt_integral_counts
    (AF_list : List ℚ) (Depth_list : List Nat) (bootstrap_num : Nat)
    (multinom : Nat → List ℚ → Nat → DepthMat) (binom : Nat → ℚ → Nat → Nat → Nat)
    (hlenEq : AF_list.length = Depth_list.length)
    (hlen : ∀ n p k, (multinom n p k).length = bootstrap_num)
    (hrows : ∀ n p k, ∀ row ∈ multinom n p k, row.length = Depth_list.length)
    (hbin : ∀ n p i j, binom n p i j ≤ n)
    (i j : Nat) (hi : i < AF_list.length) (hj : j < bootstrap_num) :
    ∃ c : Nat,
      matGetQ (bootstrap_va_dt AF_list Depth_list bootstrap_num multinom binom).1 i j *
        ((matGet (bootstrap_va_dt AF_list Depth_list bootstrap_num multinom binom).2.1 i j
          : Nat) : ℚ) = (c : ℚ) ∧
      c ≤ matGet (bootstrap_va_dt AF_list Depth_list bootstrap_num multinom binom).2.1 i j := by
  have hshape := bvdtLoop_shape (multinom Depth_list.sum (pvals Depth_list))
    bootstrap_num Depth_list.length
    (fun k => hlen Depth_list.sum (pvals Depth_list) k)
    (fun k row hrow => hrows Depth_list.sum (pvals Depth_list) k row hrow)
  have hres : (bvdtRes Depth_list multinom).1
      = (bvdtLoop (multinom Depth_list.sum (pvals Depth_list)) 0).1 := rfl
  have hjB : j < (bvdtRes Depth_list multinom).1.length := by
    rw [hres, hshape.1]; exact hj
  have hrowmem : (bvdtRes Depth_list multinom).1.getD j []
      ∈ (bvdtRes Depth_list multinom).1 := by
    rw [List.getD_eq_getElem _ _ hjB]
    exact List.getElem_mem hjB
  have hrowlen : ((bvdtRes Depth_list multinom).1.getD j []).length = Depth_list.length := by
    rw [hres] at hrowmem ⊢
    exact hshape.2 _ hrowmem
  have hentrymem : ((bvdtRes Depth_list multinom).1.getD j []).getD i 0
      ∈ (bvdtRes Depth_list multinom).1.getD j [] := by
    have hilen : i < ((bvdtRes Depth_list multinom).1.getD j []).length := by
      rw [hrowlen, ← hlenEq]; exact hi
    rw [List.getD_eq_getElem _ _ hilen]
    exact List.getElem_mem hilen
  have hposD : 1 ≤ matGet (bvdtRes Depth_list multinom).1 j i := by
    unfold matGet
    rw [hres] at hrowmem hentrymem ⊢
    exact bvdtLoop_pos (multinom Depth_list.sum (pvals Depth_list))
      _ hrowmem _ hentrymem
  have hDentry : matGet
      (bootstrap_va_dt AF_list Depth_list bootstrap_num multinom binom).2.1 i j
      = matGet (bvdtRes Depth_list multinom).1 j i := by
    rw [bootstrap_va_dt_depths]
    exact matGet_transpose _ Depth_list.length i j (by rw [← hlenEq]; exact hi)
  have hFentry := bootstrap_va_dt_freq_entry AF_list Depth_list bootstrap_num
    multinom binom i j hi hj
  refine ⟨binom (matGet (bvdtRes Depth_list multinom).1 j i) (AF_list.getD i 0) i j, ?_, ?_⟩
  · rw [hFentry, hDentry]
    rw [div_mul_cancel₀]
    have : matGet (bvdtRes Depth_list multinom).1 j i ≠ 0 := by omega
    exact_mod_cast this
  · rw [hDentry]
    exact hbin (matGet (bvdtRes Depth_list multinom).1 j i) (AF_list.getD i 0) i j

/-- Witness for C10 at the concrete input of the C1 witness. -/
theorem bootstrap_va_dt_integral_counts_witness :
    ∃ c : Nat,
      matGetQ (bootstrap_va_dt [(1 : ℚ)/2] [5] 1
          (fun n _ _ => [[n]]) (fun _ _ _ _ => 0)).1 0 0 *
        ((matGet (bootstrap_va_dt [(1 : ℚ)/2] [5] 1
          (fun n _ _ => [[n]]) (fun _ _ _ _ => 0)).2.1 0 0 : Nat) : ℚ) = (c : ℚ) ∧
      c ≤ matGet (bootstrap_va_dt [(1 : ℚ)/2] [5] 1
          (fun n _ _ => [[n]]) (fun _ _ _ _ => 0)).2.1 0 0 :=
  bootstrap_va_dt_integral_counts [(1 : ℚ)/2] [5] 1
    (fun n _ _ => [[n]]) (fun _ _ _ _ => 0)
    rfl
    (fun n p k => rfl)
    (by
      intro n p k row hrow
      rw [List.mem_singleton] at hrow
      subst hrow
      rfl)
    (fun n p i j => Nat.zero_le n)
    0 0 (by simp) (by omega)

/-- The eight columns that identify a mutation (maf_agg.py line 41). -/
structure MutKey where
  Hugo_Symbol : String
  Entrez_Gene_Id : Int
  NCBI_Build : String
  Chromosome : String
  Start_Position : Int
  End_Position : Int
  Reference_Allele : String
  Allele : String
deriving DecidableEq

/-- A row of an input MAF table (blood or tissue): the identity key plus
the variant frequency and total depth of that sample. -/
structure SrcRow where
  key : MutKey
  vaf : ℚ
  depth : ℚ
deriving DecidableEq

/-- A row of the merged table returned by `merge_mafs`: the identity key
plus the per-source frequency and depth columns, missing (`none`) for a
source that does not carry the mutation under an outer join. -/
structure MergedRow where
  key : MutKey
  Variant_Frequencies_cf : Option ℚ
  Total_Depth_cf : Option ℚ
  Variant_Frequencies_st : Option ℚ
  Total_Depth_st : Option ℚ
deriving DecidableEq

/-- Model of `cf.merge(st, on=mut_cols, how="inner")` (maf_agg.py line
45): every pair of a cf row and an st row with equal identity keys. -/
def innerJoin (cf st : List SrcRow) : List MergedRow :=
  cf.flatMap (fun c =>
    (st.filter (fun s => s.key == c.key)).map (fun s =>
      ⟨c.key, some c.vaf, some c.depth, some s.vaf, some s.depth⟩))

/-- Model of `cf.merge(st, on=mut_cols, how="outer")` (maf_agg.py line
51): matched pairs, then cf-only rows with missing st columns, then
st-only rows with missing cf columns. -/
def outerJoin (cf st : List SrcRow) : List MergedRow :=
  (cf.flatMap (fun c =>
    let matched := st.filter (fun s => s.key == c.key)
    if matched.isEmpty then
      [⟨c.key, some c.vaf, some c.depth, none, none⟩]
    else
      matched.map (fun s => ⟨c.key, some c.vaf, some c.depth, some s.vaf, some s.depth⟩)))
  ++ (st.filter (fun s => cf.all (fun c => !(c.key == s.key)))).map (fun s =>
      ⟨s.key, none, none, some s.vaf, some s.depth⟩)

/-- Model of the indicator outer merge with the germline table followed
by the `left_only` filter and the column projection (maf_agg.py lines
48, 54, 59-66): every merged row whose key appears in the germline
table is dropped. The germline table enters only through its identity
keys, which is all the left-only filter can depend on. -/
def germlineAntiJoin (rows : List MergedRow) (bc : List MutKey) : List MergedRow :=
  rows.filter (fun r => decide (r.key ∉ bc))

/-- Model of `merge_mafs` (maf_agg.py lines 28-66): join blood (`cf`)
and tissue (`st`) by the requested method, then remove every mutation
whose key is in the germline table (`bc`); an unknown method raises
before any join is performed. -/
def merge_mafs (cf st : List SrcRow) (bc : List MutKey) (method : String) :
    Except String (List MergedRow) :=
  (if method = "inner" then
    Except.ok (innerJoin cf st)
  else if method = "outer" then
    Except.ok (outerJoin cf st)
  else
    Except.error "Invalid method argument. Please use inner or outer.").map
    (fun common => germlineAntiJoin common bc)

/-- The key list of a successful `merge_mafs` result ([] on error). -/
def keyList (e : Except String (List MergedRow)) : List MutKey :=
  match e with
  | Except.ok rows => rows.map (fun r => r.key)
  | Except.error _ => []

/-- Rows surviving the germline anti-join have keys outside the
germline table. -/
theorem germlineAntiJoin_not_mem (rows : List MergedRow) (bc : List MutKey) :
    ∀ r ∈ germlineAntiJoin rows bc, r.key ∉ bc := by
  intro r hr
  unfold germlineAntiJoin at hr
  rw [List.mem_filter] at hr
  exact of_decide_eq_true hr.2

theorem except_map_ok {α β γ : Type} (f : β → γ) (x : β) :
    (Except.ok x : Except α β).map f = Except.ok (f x) := rfl

theorem except_map_error {α β γ : Type} (f : β → γ) (e : α) :
    (Except.error e : Except α β).map f = Except.error e := rfl

/-- A fixed identity key differing only in the gene symbol, for the
concrete aggregation scenario of the spec. -/
def mkKey (g : String) : MutKey :=
  ⟨g, 0, "GRCh38", "1", 1, 1, "A", "T"⟩

def kA : MutKey := mkKey "GA"

def kB : MutKey := mkKey "GB"

def kC : MutKey := mkKey "GC"

def kD : MutKey := mkKey "GD"

/-- Tissue table with keys A, B, C. -/
def tissueT : List SrcRow :=
  [⟨kA, 1/10, 100⟩, ⟨kB, 2/10, 200⟩, ⟨kC, 3/10, 300⟩]

/-- Blood table with keys B, C, D. -/
def bloodT : List SrcRow :=
  [⟨kB, 1/20, 50⟩, ⟨kC, 1/10, 60⟩, ⟨kD, 3/20, 70⟩]

/-- Germline table with key C. -/
def germT : List MutKey := [kC]

/-- C4: `merge_mafs` is join-then-germline-anti-join on the identity
key: on tissue keys A,B,C, blood keys B,C,D, germline key C, method
inner yields exactly key set B and method outer yields exactly key set
A,B,D; and in general every row whose key appears in the germline table
is absent from the result, whichever sources carry it. -/
theorem merge_mafs_scenario_and_germline :
    keyList (merge_mafs bloodT tissueT germT "inner") = [kB] ∧
    (keyList (merge_mafs bloodT tissueT germT "outer")).Perm [kA, kB, kD] ∧
    (∀ (cf st : List SrcRow) (bc : List MutKey) (method : String)
        (res : List MergedRow), merge_mafs cf st bc method = Except.ok res →
        ∀ r ∈ res, r.key ∉ bc) := by
  refine ⟨by decide, by decide, ?_⟩
  intro cf st bc method res hok r hr
  unfold merge_mafs at hok
  by_cases h1 : method = "inner"
  · rw [if_pos h1, except_map_ok] at hok
    injection hok with hok
    rw [← hok] at hr
    exact germlineAntiJoin_not_mem _ _ r hr
  · rw [if_neg h1] at hok
    by_cases h2 : method = "outer"
    · rw [if_pos h2, except_map_ok] at hok
      injection hok with hok
      rw [← hok] at hr
      exact germlineAntiJoin_not_mem _ _ r hr
    · rw [if_neg h2, except_map_error] at hok
      exact Except.noConfusion hok

/-- C8: for every method other than inner or outer, `merge_mafs` returns
an error and no result at all; for inner and outer it returns a
result and never an error. -/
theorem merge_mafs_method_errors (cf st : List SrcRow) (bc : List MutKey)
    (method : String) :
    ((∃ e, merge_mafs cf st bc method = Except.error e) ↔
      ¬ (method = "inner" ∨ method = "outer")) ∧
    ((∃ res, merge_mafs cf st bc method = Except.ok res) ↔
      (method = "inner" ∨ method = "outer")) := by
  unfold merge_mafs
  by_cases h1 : method = "inner"
  · rw [if_pos h1]
    constructor <;> simp [except_map_ok, h1]
  · rw [if_neg h1]
    by_cases h2 : method = "outer"
    · rw [if_pos h2]
      constructor <;> simp [except_map_ok, h1, h2]
    · rw [if_neg h2]
      constructor <;> simp [except_map_error, h1, h2]

/-- Python `int()` on a float: truncation toward zero. -/
def pyint (x : ℚ) : Int :=
  if 0 ≤ x then Int.floor x else Int.ceil x

/-- Model of `np.round` on a float: round half to even. -/
def npround (x : ℚ) : Int :=
  if x - (Int.floor x : ℚ) < 1/2 then Int.floor x
  else if (1 : ℚ)/2 < x - (Int.floor x : ℚ) then Int.floor x + 1
  else if Int.floor x % 2 = 0 then Int.floor x else Int.floor x + 1

/-- A row of the bootstrapped table handed to the exporter
(`write_phylowgs_input`, bootstrap_maf.py lines 120-228). `none` models
a pandas missing value; the gene symbol is `none` when the cell is not
a string. The blood observation is one optional pair because the
aggregator produces the blood depth and frequency columns jointly, so
they are missing together; the source tests only the depth for NaN.
`st_boot` and `cf_boot` hold the per-replicate bootstrap columns,
0-indexed by replicate minus one. -/
structure BRow where
  Hugo_Symbol : Option String
  Chromosome : String
  Start_Position : Int
  Total_Depth_st : Option ℚ
  Variant_Frequencies_st : Option ℚ
  cf_obs : Option (ℚ × ℚ)
  st_boot : List (ℚ × ℚ)
  cf_boot : List (Option (ℚ × ℚ))
deriving DecidableEq, Inhabited

/-- An exported PhyloWGS SSM record. -/
structure SSMRecord where
  id : String
  gene : String
  a : String
  d : String
  mu_r : ℚ
  mu_v : ℚ
deriving DecidableEq, Inhabited

/-- The gene label of a row: the gene symbol when it is a string, else
`Chromosome_StartPosition` (bootstrap_maf.py line 132). -/
def geneLabel (row : BRow) : String :=
  match row.Hugo_Symbol with
  | some s => s
  | none => row.Chromosome ++ "_" ++ toString row.Start_Position

/-- The original (non-resampled) export of one table row
(bootstrap_maf.py lines 128-163): `none` when the row is skipped for a
missing tissue depth or frequency; otherwise a record whose a and d
fields are comma-joined blood-first when the blood columns are present
and the blood depth is not missing, and scalar otherwise. -/
def exportOriginalRow (hasBloodCols : Bool) (idx : Nat) (row : BRow) :
    Option SSMRecord :=
  match row.Total_Depth_st, row.Variant_Frequencies_st with
  | some sd, some sv =>
    let tissue_depth := pyint sd
    let tissue_ref := npround ((tissue_depth : ℚ) * (1 - sv))
    let ad : String × String :=
      match hasBloodCols, row.cf_obs with
      | true, some (bd, bv) =>
        let blood_depth := pyint bd
        let blood_ref := npround ((blood_depth : ℚ) * (1 - bv))
        (toString blood_ref ++ "," ++ toString tissue_ref,
         toString blood_depth ++ "," ++ toString tissue_depth)
      | _, _ => (toString tissue_ref, toString tissue_depth)
    some { id := "s" ++ toString idx, gene := geneLabel row,
           a := ad.1, d := ad.2, mu_r := 999/1000, mu_v := 499/1000 }
  | _, _ => none

/-- The original (non-resampled) record set (bootstrap_maf.py lines
127-166): rows in table order, each contributing its record unless
skipped, ids taken from the table index `idx` of `iterrows`. -/
def exportOriginal (hasBloodCols : Bool) (rows : List BRow) : List SSMRecord :=
  rows.enum.filterMap (fun p => exportOriginalRow hasBloodCols p.1 p.2)

/-- The export of one table row for bootstrap replicate `i` (1-based)
(bootstrap_maf.py lines 187-221): no skip test is performed; the a and
d fields are comma-joined blood-first when the blood bootstrap columns
are present and the blood bootstrap depth is not missing, and scalar
otherwise. -/
def exportBootRow (hasBloodBootCols : Bool) (idx : Nat) (row : BRow) (i : Nat) :
    SSMRecord :=
  let sb := row.st_boot.getD (i - 1) (0, 0)
  let tissue_depth := pyint sb.1
  let tissue_ref := npround ((tissue_depth : ℚ) * (1 - sb.2))
  let ad : String × String :=
    match hasBloodBootCols, row.cf_boot.getD (i - 1) none with
    | true, some (bd, bv) =>
      let blood_depth := pyint bd
      let blood_ref := npround ((blood_depth : ℚ) * (1 - bv))
      (toString blood_ref ++ "," ++ toString tissue_ref,
       toString blood_depth ++ "," ++ toString tissue_depth)
    | _, _ => (toString tissue_ref, toString tissue_depth)
  { id := "s" ++ toString idx, gene := geneLabel row,
    a := ad.1, d := ad.2, mu_r := 999/1000, mu_v := 499/1000 }

/-- The record set of bootstrap replicate `i` (bootstrap_maf.py lines
186-221): one record per table row, in table order, with no skip. -/
def exportBoot (hasBloodBootCols : Bool) (rows : List BRow) (i : Nat) :
    List SSMRecord :=
  rows.enum.map (fun p => exportBootRow hasBloodBootCols p.1 p.2 i)

/-- A table row with missing tissue depth and frequency, no blood
observation at all, and a valid tissue bootstrap column for
replicate 1. -/
def r0 : BRow :=
  { Hugo_Symbol := some "G1", Chromosome := "1", Start_Position := 5,
    Total_Depth_st := none, Variant_Frequencies_st := none,
    cf_obs := none, st_boot := [(100, 1/2)], cf_boot := [none] }

/-- A table row with a valid tissue observation and no blood
observation. -/
def r1 : BRow :=
  { Hugo_Symbol := some "G2", Chromosome := "1", Start_Position := 6,
    Total_Depth_st := some 100, Variant_Frequencies_st := some (1/2),
    cf_obs := none, st_boot := [(100, 1/2)], cf_boot := [none] }

/-- C5 counterexample: a row with missing tissue depth and frequency
and no blood observation is absent from the original export, yet the
record set of bootstrap replicate 1 of the one-row table made of it is
not empty — the row is exported there, refuting absence from every
exported record set. -/
theorem export_skip_cex :
    r0.Total_Depth_st = none ∧ r0.Variant_Frequencies_st = none ∧
    r0.cf_obs = none ∧
    exportOriginal false [r0] = [] ∧
    (exportBoot false [r0] 1).length = 1 :=
  ⟨rfl, rfl, rfl, rfl, rfl⟩

/-- C5 amended: the skip of rows with a missing tissue depth or
frequency applies only to the original (non-resampled) export; every
bootstrap replicate record set contains one record for every table
row, skipped or not. -/
theorem export_skip_amended (hb hbb : Bool) (rows : List BRow)
    (idx : Nat) (row : BRow) (i : Nat)
    (hmiss : row.Total_Depth_st = none ∨ row.Variant_Frequencies_st = none) :
    exportOriginalRow hb idx row = none ∧
    (exportBoot hbb rows i).length = rows.length := by
  constructor
  · unfold exportOriginalRow
    cases hsd : row.Total_Depth_st with
    | none =>
      cases hsv : row.Variant_Frequencies_st <;> rfl
    | some sd =>
      cases hsv : row.Variant_Frequencies_st with
      | none => rfl
      | some sv =>
        rcases hmiss with h | h
        · rw [hsd] at h; exact Option.noConfusion h
        · rw [hsv] at h; exact Option.noConfusion h
  · unfold exportBoot
    rw [List.length_map, List.enum_length]

/-- Witness for the amended C5 at the concrete row of the
counterexample. -/
theorem export_skip_amended_witness :
    exportOriginalRow false 0 r0 = none ∧
    (exportBoot false [r0] 1).length = [r0].length :=
  export_skip_amended false false [r0] 0 r0 1 (Or.inl rfl)

/-- C6: for a row with both a valid blood and a valid tissue
observation, the a field of the exported record is the blood reference
count, a comma, then the tissue reference count, and the d field is the
blood depth, a comma, then the tissue depth — blood first, in the
original export and in every bootstrap replicate export; a row with
only a tissue observation gets scalar (un-joined) fields. -/
theorem export_blood_first :
    (∀ (idx : Nat) (row : BRow) (sd sv bd bv : ℚ),
      row.Total_Depth_st = some sd → row.Variant_Frequencies_st = some sv →
      row.cf_obs = some (bd, bv) →
      exportOriginalRow true idx row = some
        { id := "s" ++ toString idx, gene := geneLabel row,
          a := toString (npround ((pyint bd : ℚ) * (1 - bv))) ++ "," ++
               toString (npround ((pyint sd : ℚ) * (1 - sv))),
          d := toString (pyint bd) ++ "," ++ toString (pyint sd),
          mu_r := 999/1000, mu_v := 499/1000 }) ∧
    (∀ (hb : Bool) (idx : Nat) (row : BRow) (sd sv : ℚ),
      row.Total_Depth_st = some sd → row.Variant_Frequencies_st = some sv →
      hb = false ∨ row.cf_obs = none →
      exportOriginalRow hb idx row = some
        { id := "s" ++ toString idx, gene := geneLabel row,
          a := toString (npround ((pyint sd : ℚ) * (1 - sv))),
          d := toString (pyint sd),
          mu_r := 999/1000, mu_v := 499/1000 }) ∧
    (∀ (idx : Nat) (row : BRow) (i : Nat) (bd bv : ℚ),
      row.cf_boot.getD (i - 1) none = some (bd, bv) →
      exportBootRow true idx row i =
        { id := "s" ++ toString idx, gene := geneLabel row,
          a := toString (npround ((pyint bd : ℚ) * (1 - bv))) ++ "," ++
               toString (npround ((pyint (row.st_boot.getD (i - 1) (0, 0)).1 : ℚ) *
                 (1 - (row.st_boot.getD (i - 1) (0, 0)).2))),
          d := toString (pyint bd) ++ "," ++
               toString (pyint (row.st_boot.getD (i - 1) (0, 0)).1),
          mu_r := 999/1000, mu_v := 499/1000 }) ∧
    (∀ (hbb : Bool) (idx : Nat) (row : BRow) (i : Nat),
      hbb = false ∨ row.cf_boot.getD (i - 1) none = none →
      exportBootRow hbb idx row i =
        { id := "s" ++ toString idx, gene := geneLabel row,
          a := toString (npround ((pyint (row.st_boot.getD (i - 1) (0, 0)).1 : ℚ) *
                 (1 - (row.st_boot.getD (i - 1) (0, 0)).2))),
          d := toString (pyint (row.st_boot.getD (i - 1) (0, 0)).1),
          mu_r := 999/1000, mu_v := 499/1000 }) := by
  refine ⟨?_, ?_, ?_, ?_⟩
  · intro idx row sd sv bd bv hsd hsv hcf
    unfold exportOriginalRow
    rw [hsd, hsv, hcf]
  · intro hb idx row sd sv hsd hsv hone
    unfold exportOriginalRow
    rw [hsd, hsv]
    rcases hone with h | h
    · subst h
      cases hc : row.cf_obs with
      | none => rfl
      | some p => rfl
    · rw [h]
      cases hb <;> rfl
  · intro idx row i bd bv hcf
    unfold exportBootRow
    rw [hcf]
  · intro hbb idx row i hone
    unfold exportBootRow
    rcases hone with h | h
    · subst h
      cases hc : row.cf_boot.getD (i - 1) none with
      | none => rfl
      | some p => rfl
    · rw [h]
      cases hbb <;> rfl

/-- C7 counterexample: in a table whose first row is skipped for
missing tissue values and whose second row is valid, the original
record set has exactly one record, and its id is s1, not s0: the 0th
record of the record set does not carry id s0. -/
theorem export_ids_cex :
    (exportOriginal false [r0, r1]).length = 1 ∧
    ((exportOriginal false [r0, r1]).headD default).id = "s" ++ toString 1 ∧
    "s" ++ toString 1 ≠ "s" ++ toString 0 :=
  ⟨rfl, rfl, by decide⟩

/-- C7 amended: the id of a record is s followed by the table index of
the row it came from, shared by all record sets: in the bootstrap
record sets, which skip no row, the k-th record therefore has id s k,
while in the original record set a skipped row leaves a gap and later
records keep their table index. -/
theorem export_ids_amended :
    (∀ (hb : Bool) (idx : Nat) (row : BRow) (rec : SSMRecord),
      exportOriginalRow hb idx row = some rec →
      rec.id = "s" ++ toString idx) ∧
    (∀ (hbb : Bool) (rows : List BRow) (i k : Nat), k < rows.length →
      ((exportBoot hbb rows i).getD k default).id = "s" ++ toString k) := by
  constructor
  · intro hb idx row rec h
    unfold exportOriginalRow at h
    cases hsd : row.Total_Depth_st with
    | none =>
      rw [hsd] at h
      cases hsv : row.Variant_Frequencies_st <;> rw [hsv] at h <;>
        exact Option.noConfusion h
    | some sd =>
      cases hsv : row.Variant_Frequencies_st with
      | none =>
        rw [hsd, hsv] at h
        exact Option.noConfusion h
      | some sv =>
        rw [hsd, hsv] at h
        injection h with h2
        rw [← h2]
  · intro hbb rows i k hk
    unfold exportBoot
    have hklen : k < (rows.enum.map
        (fun p => exportBootRow hbb p.1 p.2 i)).length := by
      rw [List.length_map, List.enum_length]; exact hk
    rw [List.getD_eq_getElem _ _ hklen]
    rw [List.getElem_map]
    rw [List.getElem_enum]
    rfl

/-- IEEE 754 binary64 rounding of a rational, round to nearest with
ties to even: scale the value into the 53-bit significand range of its
binade, round half to even with `npround`, and scale back. This covers
0 and the positive normal range; the frequencies the program stores lie
in `[0, 1]` with the nonzero ones far above the subnormal threshold, so
no subnormal or overflow handling is needed for them. -/
def fl64 (q : ℚ) : ℚ :=
  if q = 0 then 0
  else ((npround (q * (2 : ℚ) ^ ((52 : ℤ) - Int.log 2 q)) : ℤ) : ℚ) *
    (2 : ℚ) ^ (Int.log 2 q - (52 : ℤ))

/-- The value the program actually stores for a resampled frequency:
`AF_list_update` is a numpy float64 array, so bootstrap_maf.py line 67
stores the binary64 rounding of `sample / new_Depth_list[j, i]`, not
the exact quotient of the rational model `bootstrap_va_dt`. -/
def storedFreq (sample depth : Nat) : ℚ :=
  fl64 ((sample : ℚ) / (depth : ℚ))

/-- The binade of 1/49: it lies in `[2^-6, 2^-5)`. -/
theorem log2_one_div_49 : Int.log 2 ((1 : ℚ) / 49) = -6 := by
  have hr : (0 : ℚ) < 1 / 49 := by norm_num
  have hb : 1 < 2 := by norm_num
  have h1 : (-6 : ℤ) ≤ Int.log 2 ((1 : ℚ) / 49) := by
    rw [← Int.zpow_le_iff_le_log hb hr]
    norm_num
  have h2 : Int.log 2 ((1 : ℚ) / 49) < -5 := by
    rw [← Int.lt_zpow_iff_log_lt hb hr]
    norm_num
  omega

/-- The binary64 value stored for a binomial count of 1 at depth 49:
`2^58/49` rounds down (its fractional part is `23/49 < 1/2`), giving
the double `5882252574524729 * 2^-58`. -/
theorem storedFreq_one_49 :
    storedFreq 1 49 = 5882252574524729 / 288230376151711744 := by
  unfold storedFreq fl64
  have harg : ((1 : Nat) : ℚ) / ((49 : Nat) : ℚ) = (1 : ℚ) / 49 := by norm_num
  rw [harg, log2_one_div_49]
  norm_num [npround]

/-- C10 counterexample: the program stores each resampled frequency as
a float64, and for a binomial count of 1 at depth 49 the stored value
times the returned depth is strictly between 0 and 1, so it is not an
exact natural number and the integral read count is not recoverable
exactly from the stored pair — while in exact arithmetic the same
product is exactly 1. -/
theorem bootstrap_va_dt_integral_counts_cex :
    (0 : ℚ) < storedFreq 1 49 * 49 ∧
    storedFreq 1 49 * 49 < 1 ∧
    (¬ ∃ c : Nat, storedFreq 1 49 * 49 = (c : ℚ)) ∧
    ((1 : ℚ) / 49) * 49 = 1 := by
  have hval := storedFreq_one_49
  refine ⟨?_, ?_, ?_, by norm_num⟩
  · rw [hval]; norm_num
  · rw [hval]; norm_num
  · rintro ⟨c, hc⟩
    rw [hval] at hc
    have h1 : (0 : ℚ) < (c : ℚ) := by rw [← hc]; norm_num
    have h2 : (c : ℚ) < 1 := by rw [← hc]; norm_num
    have h3 : 0 < c := by exact_mod_cast h1
    have h4 : c < 1 := by exact_mod_cast h2
    omega
